import Mathlib

/-!
Verification model of the call-graph validation / loading / query core of the
`callgraph-ui` repository.

Every definition below is a shallow embedding of a specific piece of the
Python source, noted with file and line references:

* `src/callgraph/model/callgraph.py`  — the pydantic document model
  (`Function`, `CallSite`, `Edge`, `CallGraph.from_dict`);
* `src/callgraph/validate/validator.py` — `validate_callgraph`;
* `src/ladybugdb.py` + `src/callgraph/loader/db.py` — the storage gateway:
  LadyBugDB is a thin wrapper around sqlite3, so the persistent tables are
  modelled with sqlite semantics (`functions` / `callsites` primary-key
  upserts, the `edges` table with an AUTOINCREMENT surrogate key and a
  `depth INTEGER NOT NULL` column, `INSERT OR IGNORE` row skipping, commit /
  rollback on a connection that separates committed from pending state);
* `src/callgraph/loader/writer.py` — `Writer.load_callgraph` and its steps;
* `src/callgraph/queries/api.py` — the read query layer.
-/

namespace CallgraphUI

/-! ### Python `str.strip()`

`callgraph.py` validators call `v.strip()`; Python strips every Unicode
whitespace character at both ends. -/

def pyWhitespace : List Char :=
  [' ', '\t', '\n', '\r', '\x0b', '\x0c', '\x1c', '\x1d', '\x1e', '\x1f',
   '\u0085', '\u00a0', '\u1680',
   '\u2000', '\u2001', '\u2002', '\u2003', '\u2004', '\u2005', '\u2006',
   '\u2007', '\u2008', '\u2009', '\u200a',
   '\u2028', '\u2029', '\u202f', '\u205f', '\u3000']

def isPyWs (c : Char) : Bool := pyWhitespace.contains c

/-- Python `str.strip()`: drop leading and trailing whitespace characters. -/
def pyStrip (s : String) : String :=
  String.mk (((s.toList.dropWhile isPyWs).reverse.dropWhile isPyWs).reverse)

/-! ### Document model — `src/callgraph/model/callgraph.py`

The pydantic `field_validator`s (lines 19-25, 37-51, 61-67): a required
string field is rejected when empty or whitespace-only and otherwise stored
stripped; an optional `line` must be `>= 1` when present. -/

/-- `not_empty` validator (callgraph.py lines 21-25, 39-43, 63-67):
`if not v or not v.strip(): raise ValueError(...)` then `return v.strip()`. -/
def not_empty (v : String) : Except String String :=
  if v = "" || pyStrip v = "" then .error "Field cannot be empty"
  else .ok (pyStrip v)

/-- `valid_line` validator (callgraph.py lines 47-51). -/
def valid_line (v : Option Int) : Except String (Option Int) :=
  match v with
  | some n => if n < 1 then .error "Line number must be positive" else .ok (some n)
  | none => .ok none

structure Function where
  id : String
  name : String
  file : Option String := none
  signature : Option String := none
deriving DecidableEq

structure CallSite where
  id : String
  caller : String
  callee : String
  file : Option String := none
  line : Option Int := none
deriving DecidableEq

structure Edge where
  caller : String
  callee : String
  callsite_id : Option String := none
deriving DecidableEq

structure CallGraph where
  functions : List Function := []
  callsites : List CallSite := []
  edges : List Edge := []
deriving DecidableEq

/-- Constructing `Function(**f)`: pydantic rejects a missing required field,
then runs `not_empty` on `id` and `name` (in field order). `file` and
`signature` are optional and unvalidated. -/
def mkFunction (id name : Option String) (file signature : Option String) :
    Except String Function :=
  match id, name with
  | some i, some n => do
    let i ← not_empty i
    let n ← not_empty n
    .ok ⟨i, n, file, signature⟩
  | _, _ => .error "field required"

/-- Constructing `CallSite(**normalized)`: `not_empty` on `id`, `caller`,
`callee`, then `valid_line` on `line`. -/
def mkCallSite (id caller callee : Option String) (file : Option String)
    (line : Option Int) : Except String CallSite :=
  match id, caller, callee with
  | some i, some c, some d => do
    let i ← not_empty i
    let c ← not_empty c
    let d ← not_empty d
    let l ← valid_line line
    .ok ⟨i, c, d, file, l⟩
  | _, _, _ => .error "field required"

/-- Constructing `Edge(...)`: `not_empty` on `caller` and `callee`;
`callsite_id` is optional and unvalidated. -/
def mkEdge (caller callee : Option String) (callsite_id : Option String) :
    Except String Edge :=
  match caller, callee with
  | some c, some d => do
    let c ← not_empty c
    let d ← not_empty d
    .ok ⟨c, d, callsite_id⟩
  | _, _ => .error "field required"

/-! ### `CallGraph.from_dict` — callgraph.py lines 77-126

The input document is a JSON object; the fields the code reads through
`data.get(...)` are modelled as optional fields of a record.  A key that the
code never reads (notably the top-level `calls` key used by the documents
this repository itself produces) is carried in the record so that such
documents can be expressed, and is — exactly like in the source — ignored. -/

structure FunRecord where
  id : Option String := none
  name : Option String := none
  file : Option String := none
  signature : Option String := none
deriving DecidableEq

structure CSRecord where
  id : Option String := none
  caller : Option String := none
  caller_id : Option String := none
  callee : Option String := none
  callee_id : Option String := none
  file : Option String := none
  line : Option Int := none
deriving DecidableEq

structure EdgeRecord where
  caller : Option String := none
  caller_id : Option String := none
  callee : Option String := none
  callee_id : Option String := none
  callsite_id : Option String := none
deriving DecidableEq

structure Document where
  functions : Option (List FunRecord) := none
  callsites : Option (List CSRecord) := none
  callSites : Option (List CSRecord) := none
  calls : Option (List CSRecord) := none
  edges : Option (List EdgeRecord) := none
deriving DecidableEq

/-- `CallGraph.from_dict` (callgraph.py lines 77-126).
`functions_data = data.get("functions", [])`;
`callsites_data = data.get("callsites", data.get("callSites", []))` — note
that the `calls` key is never consulted;
`edges_data = data.get("edges", [])`, and when that list is empty the edges
are derived one per parsed callsite via `Edge(caller=cs.caller,
callee=cs.callee, callsite_id=cs.id)`. -/
def CallGraph.from_dict (data : Document) : Except String CallGraph := do
  let functions ← (data.functions.getD []).mapM
    (fun f => mkFunction f.id f.name f.file f.signature)
  let csData := data.callsites.getD (data.callSites.getD [])
  let callsites ← csData.mapM
    (fun cs => mkCallSite cs.id (cs.caller <|> cs.caller_id)
      (cs.callee <|> cs.callee_id) cs.file cs.line)
  let edgesData := data.edges.getD []
  let edges ←
    if edgesData.isEmpty then
      callsites.mapM (fun cs => mkEdge (some cs.caller) (some cs.callee) (some cs.id))
    else
      edgesData.mapM (fun e => mkEdge (e.caller <|> e.caller_id)
        (e.callee <|> e.callee_id) e.callsite_id)
  .ok ⟨functions, callsites, edges⟩

/-! ### Validator — `src/callgraph/validate/validator.py` lines 25-115

The Python accumulates, in one pass each, duplicate function ids, then
duplicate callsite ids together with dangling callsite references, then
dangling edge references, and raises `ValidationError` at four distinct
`raise` sites.  The violation payloads are modelled structurally (the lists
the code formats into the message strings). -/

/-- The `seen`-set / duplicate-list loop (validator.py lines 49-52 and 64-67):
for each id, if it was seen before it is appended to the duplicate list; the
`seen` set is modelled by list membership. -/
def dupScanAux (seen : List String) : List String → List String
  | [] => []
  | i :: rest =>
    if seen.contains i then i :: dupScanAux (i :: seen) rest
    else dupScanAux (i :: seen) rest

def duplicateIds (ids : List String) : List String := dupScanAux [] ids

/-- The dangling-reference accumulation of the callsite loop (validator.py
lines 69-77): for each callsite, in order, one entry per missing `caller`
followed by one per missing `callee`; an entry is the pair of the callsite id
and the missing function id (the data the message string names). -/
def callsiteRefViolations (function_ids : List String) (cs : List CallSite) :
    List (String × String) :=
  cs.foldl (fun acc c =>
    let acc := if function_ids.contains c.caller then acc else acc ++ [(c.id, c.caller)]
    if function_ids.contains c.callee then acc else acc ++ [(c.id, c.callee)]) []

/-- The edge loop (validator.py lines 93-105): for edge number `i`, an entry
per missing `caller`, per missing `callee`, and — when `callsite_id` is set
(non-`None` and non-empty, Python truthiness) — per missing callsite id. -/
def edgeRefViolations (function_ids callsite_ids : List String)
    (edges : List Edge) : List (Nat × String) :=
  (edges.enum.foldl (fun acc p =>
    let i := p.1
    let e := p.2
    let acc := if function_ids.contains e.caller then acc else acc ++ [(i, e.caller)]
    let acc := if function_ids.contains e.callee then acc else acc ++ [(i, e.callee)]
    match e.callsite_id with
    | none => acc
    | some cid =>
      if cid = "" then acc
      else if callsite_ids.contains cid then acc else acc ++ [(i, cid)]) [])

inductive ValidationError where
  | noFunctions
  | duplicateFunctionIds (ids : List String)
  | duplicateCallsiteIds (ids : List String)
  | invalidCallsiteRefs (viols : List (String × String))
  | invalidEdgeRefs (viols : List (Nat × String))
deriving DecidableEq

/-- `validate_callgraph` (validator.py lines 25-115): empty-graph check, then
the four `raise` sites in source order — duplicate function ids, duplicate
callsite ids, dangling callsite references, dangling edge references. -/
def validate_callgraph (graph : CallGraph) : Except ValidationError Unit :=
  if graph.functions = [] then .error .noFunctions
  else
    let function_ids := graph.functions.map (fun f => f.id)
    let duplicate_functions := duplicateIds function_ids
    if duplicate_functions ≠ [] then .error (.duplicateFunctionIds duplicate_functions)
    else
      let callsite_ids := graph.callsites.map (fun c => c.id)
      let duplicate_callsites := duplicateIds callsite_ids
      let invalid_callsite_refs := callsiteRefViolations function_ids graph.callsites
      if duplicate_callsites ≠ [] then .error (.duplicateCallsiteIds duplicate_callsites)
      else if invalid_callsite_refs ≠ [] then .error (.invalidCallsiteRefs invalid_callsite_refs)
      else
        let invalid_edge_refs := edgeRefViolations function_ids callsite_ids graph.edges
        if invalid_edge_refs ≠ [] then .error (.invalidEdgeRefs invalid_edge_refs)
        else .ok ()

/-! ### Storage gateway — `src/ladybugdb.py`, `src/callgraph/loader/db.py`,
`src/callgraph/schema/ddl.py`

LadyBugDB wraps a sqlite3 connection.  The three tables of `DB_SCHEMA`:
`functions(id TEXT PRIMARY KEY, name, file, signature)`,
`callsites(id TEXT PRIMARY KEY, caller_function_id, callee_function_id,
file, line)`, and `edges(id INTEGER PRIMARY KEY AUTOINCREMENT,
caller_function_id, callee_function_id, callsite_id, depth INTEGER NOT
NULL)`.  There is no UNIQUE constraint on `(caller_function_id,
callee_function_id)`.  Foreign keys are declared but sqlite leaves
`PRAGMA foreign_keys` off, so they are not enforced.  A column value is
modelled as `Option` when the schema admits NULL and the NOT NULL
constraints are enforced at the write operations. -/

structure FunRow where
  id : String
  name : String
  file : Option String
  signature : Option String
deriving DecidableEq

structure CSRow where
  id : String
  caller_function_id : String
  callee_function_id : String
  file : Option String
  line : Option Int
deriving DecidableEq

structure EdgeRow where
  rowid : Nat
  caller_function_id : String
  callee_function_id : String
  callsite_id : Option String
  depth : Option Int
deriving DecidableEq

structure DBState where
  functions : List FunRow := []
  callsites : List CSRow := []
  edges : List EdgeRow := []
  nextEdgeId : Nat := 1
deriving DecidableEq

/-- A sqlite connection: the durable (committed) database and the state the
open transaction sees.  `Connection.commit` / `Connection.rollback`
(ladybugdb.py lines 65-71). -/
structure Conn where
  committed : DBState
  pending : DBState
deriving DecidableEq

def commitConn (c : Conn) : Conn := ⟨c.pending, c.pending⟩

def rollbackConn (c : Conn) : Conn := ⟨c.committed, c.committed⟩

def emptyDB : DBState := {}

def emptyConn : Conn := ⟨emptyDB, emptyDB⟩

/-- `DB.execute` (db.py lines 48-72): runs the read and converts the rows to
a plain list; `except Exception: logger.error(...); return []` — an engine
fault is caught and becomes the empty list.  The engine outcome is the
argument: `.ok rows` for a successful read, `.error msg` for a storage
fault. -/
def dbExecute {α : Type} (engineResult : Except String (List α)) : List α :=
  match engineResult with
  | .ok records => records
  | .error _ => []

/-! ### Writer — `src/callgraph/loader/writer.py`

`DB.executemany` (db.py lines 85-94) runs `conn.execute` once per parameter
set and then `self.conn.commit()`: every batch is committed as soon as it
finishes, so a later failure inside `load_callgraph` cannot roll it back. -/

/-- Row built from a `Function` by `Writer._insert_functions` (writer.py
lines 68-71). -/
def funRowOf (f : Function) : FunRow := ⟨f.id, f.name, f.file, f.signature⟩

/-- Row built from a `CallSite` by `Writer._insert_callsites` (writer.py
lines 95-98). -/
def csRowOf (c : CallSite) : CSRow := ⟨c.id, c.caller, c.callee, c.file, c.line⟩

/-- `ON CONFLICT(id) DO UPDATE SET name = excluded.name, file =
excluded.file, signature = excluded.signature` (writer.py lines 59-66). -/
def ovFun (x r : FunRow) : FunRow := ⟨x.id, r.name, r.file, r.signature⟩

/-- `ON CONFLICT(id) DO UPDATE SET caller_function_id = ..., callee_function_id
= ..., file = ..., line = ...` (writer.py lines 85-93). -/
def ovCS (x r : CSRow) : CSRow :=
  ⟨x.id, r.caller_function_id, r.callee_function_id, r.file, r.line⟩

/-- A single upsert against a table with a TEXT PRIMARY KEY: on key conflict
the existing row is overwritten in place by `ov`, otherwise the row is
appended. -/
def upsertBy {α : Type} (key : α → String) (ov : α → α → α)
    (t : List α) (r : α) : List α :=
  if t.any (fun x => key x == key r) then
    t.map (fun x => if key x == key r then ov x r else x)
  else t ++ [r]

/-- One `executemany` batch of upserts, row by row in order. -/
def upsertManyBy {α : Type} (key : α → String) (ov : α → α → α)
    (t : List α) (rs : List α) : List α :=
  rs.foldl (upsertBy key ov) t

/-- `INSERT OR IGNORE INTO edges (caller_function_id, callee_function_id,
callsite_id) VALUES (?, ?, ?)` (writer.py lines 112-115) against the table of
ddl.py lines 31-42: `depth INTEGER NOT NULL` has no default, the statement
supplies no depth, and sqlite resolves the NOT NULL violation under IGNORE by
skipping the row.  A hypothetical insert that did supply a depth would append
unconditionally — the table has no UNIQUE constraint on the
`(caller_function_id, callee_function_id)` pair, only the AUTOINCREMENT
surrogate key. -/
def insertOrIgnoreEdgeRow (s : DBState) (caller callee : String)
    (callsite_id : Option String) (depth : Option Int) : DBState :=
  match depth with
  | none => s
  | some d =>
    { s with
      edges := s.edges ++ [⟨s.nextEdgeId, caller, callee, callsite_id, some d⟩],
      nextEdgeId := s.nextEdgeId + 1 }

/-- The table mutation performed by `Writer._insert_functions` (writer.py
lines 53-74): one upsert per function, in list order. -/
def insertFunctionsState (s : DBState) (fs : List Function) : DBState :=
  { s with functions :=
      upsertManyBy (fun r => r.id) ovFun s.functions (fs.map funRowOf) }

/-- The table mutation performed by `Writer._insert_callsites` (writer.py
lines 85-100). -/
def insertCallsitesState (s : DBState) (cs : List CallSite) : DBState :=
  { s with callsites :=
      upsertManyBy (fun r => r.id) ovCS s.callsites (cs.map csRowOf) }

/-- The table mutation performed by `Writer._insert_edges` (writer.py lines
112-122): each row is offered without a depth value and is therefore skipped
(see `insertOrIgnoreEdgeRow`). -/
def insertEdgesState (s : DBState) (es : List Edge) : DBState :=
  es.foldl
    (fun st e => insertOrIgnoreEdgeRow st e.caller e.callee e.callsite_id none) s

/-- `DB.executemany` (db.py lines 85-94): apply the batch to the open
transaction, then `self.conn.commit()`. -/
def execmanyCommit (c : Conn) (step : DBState → DBState) : Conn :=
  commitConn { c with pending := step c.pending }

/-- `Writer._insert_functions`: always calls `executemany` (no empty-list
guard). -/
def writerInsertFunctions (c : Conn) (fs : List Function) : Conn :=
  execmanyCommit c (fun s => insertFunctionsState s fs)

/-- `Writer._insert_callsites`: `if not callsites: return` (writer.py lines
82-83), else `executemany`. -/
def writerInsertCallsites (c : Conn) (cs : List CallSite) : Conn :=
  if cs = [] then c else execmanyCommit c (fun s => insertCallsitesState s cs)

/-- `Writer._insert_edges`: `if not edges: return` (writer.py lines 109-110),
else `executemany`. -/
def writerInsertEdges (c : Conn) (es : List Edge) : Conn :=
  if es = [] then c else execmanyCommit c (fun s => insertEdgesState s es)

inductive PyError where
  | attributeError (msg : String)
deriving DecidableEq

def fetchoneError : PyError :=
  .attributeError "list object has no attribute fetchone"

/-- `Writer._compute_depths` (writer.py lines 125-189).  Line 132 assigns
`cursor = self.db.execute(...)`, but `DB.execute` (db.py lines 48-72) returns
a plain Python list of dictionaries, not a cursor; line 136 then calls
`cursor.fetchone()`, which raises `AttributeError` for every input — before
the root is resolved, before the adjacency is read and before any depth is
written.  The BFS and update logic of lines 144-189 (modelled below as
`adjacencyOf`, `bfsDepths`, `edgeDepthUpdates`, `applyDepthUpdate`) is
unreachable from here. -/
def writerComputeDepths (c : Conn) (root_function : String) :
    Except PyError Conn :=
  .error fetchoneError

/-- The row list the root-resolution query `SELECT id FROM functions WHERE
id = ? OR name = ?` (writer.py line 133) produces: `name` is unindexed, so
sqlite scans the table and keeps row order; nothing orders id matches before
name matches. -/
def rootResolutionRows (functions : List FunRow) (root_function : String) :
    List String :=
  (functions.filter
    (fun f => f.id == root_function || f.name == root_function)).map
    (fun f => f.id)

structure LoadResult where
  conn : Conn
  error : Option PyError
deriving DecidableEq

/-- `Writer.load_callgraph` (writer.py lines 23-51): insert functions,
callsites and edges (each batch committed by `DB.executemany`), then compute
depths; on success commit, on any exception roll back and re-raise.  The
depth step always raises (see `writerComputeDepths`), so the rollback path is
taken on every call — but it can only discard writes that are not yet
committed. -/
def load_callgraph (c : Conn) (graph : CallGraph) (root_function : String) :
    LoadResult :=
  let c1 := writerInsertFunctions c graph.functions
  let c2 := writerInsertCallsites c1 graph.callsites
  let c3 := writerInsertEdges c2 graph.edges
  match writerComputeDepths c3 root_function with
  | .ok c4 => ⟨commitConn c4, none⟩
  | .error e => ⟨rollbackConn c3, some e⟩

/-! ### The BFS depth logic — writer.py lines 144-189

This is the traversal and update logic of `_compute_depths` after the point
where the method has already raised; it is modelled on its own both to
document what the source would compute and because claims speak about it. -/

/-- Adjacency construction (writer.py lines 149-156): iterate the edge rows
in table order; first occurrence of a caller appends a new entry, later ones
append the callee to its list (Python dicts preserve insertion order). -/
def addAdj (a : List (String × List String)) (caller callee : String) :
    List (String × List String) :=
  if a.any (fun p => p.1 == caller) then
    a.map (fun p => if p.1 == caller then (p.1, p.2 ++ [callee]) else p)
  else a ++ [(caller, [callee])]

def adjacencyOf (edges : List EdgeRow) : List (String × List String) :=
  edges.foldl
    (fun a r => addAdj a r.caller_function_id r.callee_function_id) []

def lookupAdj (a : List (String × List String)) (k : String) : List String :=
  match a.find? (fun p => p.1 == k) with
  | some p => p.2
  | none => []

/-- One neighbor of the inner loop (writer.py lines 167-170): `if neighbor
not in depths: depths[neighbor] = current_depth + 1; queue.append(neighbor)`. -/
def bfsVisit (dq : List (String × Nat) × List String) (d : Nat) (n : String) :
    List (String × Nat) × List String :=
  if dq.1.any (fun p => p.1 == n) then dq
  else (dq.1 ++ [(n, d + 1)], dq.2 ++ [n])

/-- Inner neighbor loop (writer.py lines 166-170): a neighbor without a depth
gets `current_depth + 1` and is enqueued. -/
def bfsStepNeighbors (dq : List (String × Nat) × List String) (d : Nat)
    (ns : List String) : List (String × Nat) × List String :=
  ns.foldl (fun dq n => bfsVisit dq d n) dq

/-- The BFS loop (writer.py lines 158-170), fuel-based: each iteration pops
the queue head, reads its depth and visits its neighbors.  The fuel chosen in
`bfsDepths` exceeds the number of possible iterations (one initial element
plus at most one push per adjacency-list entry), so the fuel case is never
the reason the loop stops. -/
def bfsLoop (adj : List (String × List String)) :
    Nat → List (String × Nat) → List String → List (String × Nat)
  | 0, depths, _ => depths
  | _ + 1, depths, [] => depths
  | fuel + 1, depths, current :: queue =>
    let current_depth :=
      match depths.find? (fun p => p.1 == current) with
      | some p => p.2
      | none => 0
    let dq := bfsStepNeighbors (depths, queue) current_depth (lookupAdj adj current)
    bfsLoop adj fuel dq.1 dq.2

/-- Depths computed by the BFS from the root: `depths = {root_id: 0}`,
`queue = deque([root_id])` (writer.py lines 159-160). -/
def bfsDepths (adj : List (String × List String)) (root_id : String) :
    List (String × Nat) :=
  bfsLoop adj (2 + (adj.map (fun p => p.2.length)).sum) [(root_id, 0)] [root_id]

/-- One adjacency entry of the update construction (writer.py lines 180-185):
`if caller in depths: for callee in callees: if callee in depths:
updates.append((depths[caller], caller, callee))`. -/
def edgeUpdateStep (depths : List (String × Nat))
    (acc : List (Nat × String × String)) (p : String × List String) :
    List (Nat × String × String) :=
  match depths.find? (fun q => q.1 == p.1) with
  | none => acc
  | some q =>
    acc ++ (p.2.filter (fun n => depths.any (fun q2 => q2.1 == n))).map
      (fun n => (q.2, p.1, n))

/-- The update batch construction (writer.py lines 179-185): for each
adjacency entry whose caller has a depth, one update per callee that has a
depth, carrying the depth of the caller. -/
def edgeDepthUpdates (adj : List (String × List String))
    (depths : List (String × Nat)) : List (Nat × String × String) :=
  adj.foldl (edgeUpdateStep depths) []

/-- `UPDATE edges SET depth = ? WHERE caller_function_id = ? AND
callee_function_id = ?` (writer.py lines 173-177). -/
def applyDepthUpdate (t : List EdgeRow) (u : Nat × String × String) :
    List EdgeRow :=
  t.map (fun r =>
    if r.caller_function_id == u.2.1 && r.callee_function_id == u.2.2 then
      { r with depth := some (Int.ofNat u.1) }
    else r)

/-! ### Query layer — `src/callgraph/queries/api.py`

All queries run through `DB.execute` against the committed database.  sqlite
orders TEXT with the BINARY collation, i.e. by UTF-8 bytes, which coincides
with code-point lexicographic order. -/

/-- Lexicographic comparison of strings by code point — the sqlite BINARY
collation used by `ORDER BY` on TEXT columns. -/
def charListLe : List Char → List Char → Bool
  | [], _ => true
  | _ :: _, [] => false
  | a :: as, b :: bs =>
    if a.val < b.val then true
    else if b.val < a.val then false
    else charListLe as bs

def strLeB (a b : String) : Bool := charListLe a.toList b.toList

/-- `get_callees` (api.py lines 40-63): join each edge row with the callee
and the caller function row, keep those whose caller matches the argument by
id or by name, project the callee row, `SELECT DISTINCT`, `ORDER BY f.name`.
The two joins resolve by primary key (`find?` — the id columns are unique in
any state the writer produces). -/
def get_callees (s : DBState) (function : String) : List FunRow :=
  let rows := s.edges.filterMap (fun e =>
    match s.functions.find? (fun f => f.id == e.callee_function_id),
        s.functions.find? (fun f => f.id == e.caller_function_id) with
    | some f, some caller =>
      if caller.id == function || caller.name == function then some f else none
    | _, _ => none)
  List.insertionSort (fun a b => strLeB a.name b.name) rows.dedup

/-- `get_callers` (api.py lines 66-89), symmetric to `get_callees`. -/
def get_callers (s : DBState) (function : String) : List FunRow :=
  let rows := s.edges.filterMap (fun e =>
    match s.functions.find? (fun f => f.id == e.caller_function_id),
        s.functions.find? (fun f => f.id == e.callee_function_id) with
    | some f, some callee =>
      if callee.id == function || callee.name == function then some f else none
    | _, _ => none)
  List.insertionSort (fun a b => strLeB a.name b.name) rows.dedup

structure DepthSummaryRow where
  depth : Int
  function_count : Nat
  edge_count : Nat
deriving DecidableEq

/-- The distinct depth values present among edge rows whose `depth` is
assigned (`WHERE depth IS NOT NULL`), in ascending order (`GROUP BY depth
ORDER BY depth`). -/
def assignedDepthsSorted (edges : List EdgeRow) : List Int :=
  List.insertionSort (fun a b => a ≤ b) (edges.filterMap (fun r => r.depth)).dedup

/-- `depth_summary` (api.py lines 92-118): `SELECT depth, COUNT(DISTINCT
caller_function_id) AS function_count, COUNT(*) AS edge_count FROM edges
WHERE depth IS NOT NULL GROUP BY depth ORDER BY depth`.  (The `root` CLI
argument is unused by the query.) -/
def depth_summary (s : DBState) : List DepthSummaryRow :=
  (assignedDepthsSorted s.edges).map (fun d =>
    let rows := s.edges.filter (fun r => r.depth == some d)
    ⟨d, (rows.map (fun r => r.caller_function_id)).dedup.length, rows.length⟩)

/-- `get_all_depths` (api.py lines 196-213): `SELECT DISTINCT depth FROM
edges WHERE depth IS NOT NULL ORDER BY depth`. -/
def get_all_depths (s : DBState) : List Int := assignedDepthsSorted s.edges

/-! ### Concrete inputs

The specification's test scenario: functions `f1`/`main`, `f2`/`a`,
`f3`/`b`, calls `f1 → f2`, `f2 → f3`, `f1 → f3`. -/

/-- The scenario document as the spec writes it — call records under the
top-level `calls` key. -/
def docCalls : Document :=
  { functions := some
      [{ id := some "f1", name := some "main" },
       { id := some "f2", name := some "a" },
       { id := some "f3", name := some "b" }],
    calls := some
      [{ caller := some "f1", callee := some "f2" },
       { caller := some "f2", callee := some "f3" },
       { caller := some "f1", callee := some "f3" }] }

/-- The same call records placed under the `callsites` key that
`from_dict` does read (each record also carries an id, which `CallSite`
requires). -/
def docCallsites : Document :=
  { functions := some
      [{ id := some "f1", name := some "main" },
       { id := some "f2", name := some "a" },
       { id := some "f3", name := some "b" }],
    callsites := some
      [{ id := some "cs1", caller := some "f1", callee := some "f2" },
       { id := some "cs2", caller := some "f2", callee := some "f3" },
       { id := some "cs3", caller := some "f1", callee := some "f3" }] }

/-- The scenario graph itself (what a working parse of the scenario would
produce): three functions, three callsites, three derived edges. -/
def graphMAB : CallGraph :=
  { functions :=
      [{ id := "f1", name := "main" },
       { id := "f2", name := "a" },
       { id := "f3", name := "b" }],
    callsites :=
      [{ id := "cs1", caller := "f1", callee := "f2" },
       { id := "cs2", caller := "f2", callee := "f3" },
       { id := "cs3", caller := "f1", callee := "f3" }],
    edges :=
      [{ caller := "f1", callee := "f2", callsite_id := some "cs1" },
       { caller := "f2", callee := "f3", callsite_id := some "cs2" },
       { caller := "f1", callee := "f3", callsite_id := some "cs3" }] }

/-- Hypothetical edge rows `main → a`, `a → b`, `main → b` (the claim's BFS
example), used to exercise the traversal logic of writer.py lines 144-189 on
its own. -/
def erowsMAB : List EdgeRow :=
  [⟨1, "main", "a", none, none⟩,
   ⟨2, "a", "b", none, none⟩,
   ⟨3, "main", "b", none, none⟩]

/-- A functions table where the argument "main" matches the first row by
name and the second row by id. -/
def ambiguousFunRows : List FunRow :=
  [⟨"fa", "main", none, none⟩, ⟨"main", "entry", none, none⟩]

/-- Graph with duplicate callsite ids (`cs1` twice) and a dangling callee
reference (`ghost`) in `cs2`. -/
def graphDupAndDangling : CallGraph :=
  { functions := [{ id := "f1", name := "main" }],
    callsites :=
      [{ id := "cs1", caller := "f1", callee := "f1" },
       { id := "cs1", caller := "f1", callee := "f1" },
       { id := "cs2", caller := "f1", callee := "ghost" }] }

/-- Stability of a table under one more upsert of `r`: every row already
carrying `r`'s key is unchanged by the overwrite. -/
def StableFor {α : Type} (key : α → String) (ov : α → α → α)
    (t : List α) (r : α) : Prop :=
  ∀ x ∈ t, key x = key r → ov x r = x

/-- The transaction state after the three insert steps of `load_callgraph`,
starting from state `p`: functions and callsites upserted, edges untouched. -/
def writtenState (g : CallGraph) (p : DBState) : DBState :=
  insertCallsitesState (insertFunctionsState p g.functions) g.callsites

/-- Reachability along the adjacency projection: what the BFS of writer.py
lines 158-170 can ever visit starting from the root. -/
inductive ReachableFrom (adj : List (String × List String)) (root : String) :
    String → Prop
  | root : ReachableFrom adj root root
  | step {x y : String} : ReachableFrom adj root x → y ∈ lookupAdj adj x →
      ReachableFrom adj root y

/-- Adjacency for the C8 witness: one edge `main → a`; `b` is unreachable. -/
def adjW : List (String × List String) := [("main", ["a"])]

/-! ### Idempotence of keyed upserts

`upsertBy` against a primary-keyed table: overwriting is stable, so applying
one batch twice gives the same table as applying it once (the batch keys are
pairwise distinct for any validated graph). -/

section UpsertLemmas

variable {α : Type} (key : α → String) (ov : α → α → α)

theorem map_id_of_mem {β : Type} (f : β → β) :
    ∀ (t : List β), (∀ x ∈ t, f x = x) → t.map f = t := by
  intro t
  induction t with
  | nil => intro _; rfl
  | cons a t ih =>
    intro h
    simp only [List.map_cons]
    rw [h a (by simp), ih (fun x hx => h x (by simp [hx]))]


theorem upsertBy_of_stable (t : List α) (r : α)
    (hmem : ∃ x ∈ t, key x = key r) (hstab : StableFor key ov t r) :
    upsertBy key ov t r = t := by
  obtain ⟨x0, hx0, hkx0⟩ := hmem
  have hany : t.any (fun x => key x == key r) = true := by
    simp only [List.any_eq_true]
    exact ⟨x0, hx0, by simp [hkx0]⟩
  unfold upsertBy
  rw [if_pos hany]
  apply map_id_of_mem
  intro x hx
  by_cases hk : key x = key r
  · rw [if_pos (by simp [hk])]
    exact hstab x hx hk
  · rw [if_neg (by simp [hk])]

theorem stableFor_upsertBy_self
    (hkey : ∀ x r, key (ov x r) = key x)
    (hov2 : ∀ x r, ov (ov x r) r = ov x r)
    (hself : ∀ r, ov r r = r)
    (t : List α) (r : α) : StableFor key ov (upsertBy key ov t r) r := by
  intro x hx hkx
  unfold upsertBy at hx
  by_cases hany : t.any (fun y => key y == key r) = true
  · rw [if_pos hany] at hx
    rw [List.mem_map] at hx
    obtain ⟨x0, hx0, hfx0⟩ := hx
    by_cases hk : key x0 = key r
    · rw [if_pos (by simp [hk])] at hfx0
      rw [← hfx0]
      exact hov2 x0 r
    · rw [if_neg (by simp [hk])] at hfx0
      subst hfx0
      exact absurd hkx hk
  · rw [if_neg hany] at hx
    rw [List.mem_append, List.mem_singleton] at hx
    rcases hx with hx | hx
    · exfalso
      apply hany
      simp only [List.any_eq_true]
      exact ⟨x, hx, by simp [hkx]⟩
    · rw [hx]
      exact hself r

theorem stableFor_upsertBy_other
    (hkey : ∀ x r, key (ov x r) = key x)
    (t : List α) (r r' : α) (hne : key r' ≠ key r)
    (hstab : StableFor key ov t r) :
    StableFor key ov (upsertBy key ov t r') r := by
  intro x hx hkx
  unfold upsertBy at hx
  by_cases hany : t.any (fun y => key y == key r') = true
  · rw [if_pos hany] at hx
    rw [List.mem_map] at hx
    obtain ⟨x0, hx0, hfx0⟩ := hx
    by_cases hk : key x0 = key r'
    · rw [if_pos (by simp [hk])] at hfx0
      exfalso
      apply hne
      rw [← hkx, ← hfx0, hkey, hk]
    · rw [if_neg (by simp [hk])] at hfx0
      subst hfx0
      exact hstab x0 hx0 hkx
  · rw [if_neg hany] at hx
    rw [List.mem_append, List.mem_singleton] at hx
    rcases hx with hx | hx
    · exact hstab x hx hkx
    · exfalso
      apply hne
      rw [← hkx, hx]

theorem stableFor_upsertManyBy
    (hkey : ∀ x r, key (ov x r) = key x) :
    ∀ (rs : List α) (t : List α) (r : α),
      (∀ r'' ∈ rs, key r'' ≠ key r) → StableFor key ov t r →
      StableFor key ov (upsertManyBy key ov t rs) r := by
  intro rs
  induction rs with
  | nil => intro t r _ h; exact h
  | cons r' rs ih =>
    intro t r hne h
    show StableFor key ov (upsertManyBy key ov (upsertBy key ov t r') rs) r
    exact ih (upsertBy key ov t r') r
      (fun r'' h'' => hne r'' (by simp [h'']))
      (stableFor_upsertBy_other key ov hkey t r r' (hne r' (by simp)) h)

theorem keyMem_upsertBy
    (hkey : ∀ x r, key (ov x r) = key x)
    (t : List α) (r : α) (k : String)
    (hmem : ∃ x ∈ t, key x = k) : ∃ x ∈ upsertBy key ov t r, key x = k := by
  obtain ⟨x0, hx0, hkx0⟩ := hmem
  unfold upsertBy
  by_cases hany : t.any (fun y => key y == key r) = true
  · rw [if_pos hany]
    refine ⟨_, List.mem_map_of_mem _ hx0, ?_⟩
    by_cases hk : key x0 = key r
    · rw [if_pos (by simp [hk]), hkey, hkx0]
    · rw [if_neg (by simp [hk]), hkx0]
  · rw [if_neg hany]
    exact ⟨x0, List.mem_append_left _ hx0, hkx0⟩

theorem keyMem_upsertManyBy
    (hkey : ∀ x r, key (ov x r) = key x) :
    ∀ (rs : List α) (t : List α) (k : String),
      (∃ x ∈ t, key x = k) → ∃ x ∈ upsertManyBy key ov t rs, key x = k := by
  intro rs
  induction rs with
  | nil => intro t k h; exact h
  | cons r' rs ih =>
    intro t k h
    show ∃ x ∈ upsertManyBy key ov (upsertBy key ov t r') rs, key x = k
    exact ih (upsertBy key ov t r') k (keyMem_upsertBy key ov hkey t r' k h)

theorem keyMem_upsertBy_exists
    (hkey : ∀ x r, key (ov x r) = key x)
    (t : List α) (r : α) : ∃ x ∈ upsertBy key ov t r, key x = key r := by
  unfold upsertBy
  by_cases hany : t.any (fun y => key y == key r) = true
  · rw [if_pos hany]
    rw [List.any_eq_true] at hany
    obtain ⟨x0, hx0, hkx0⟩ := hany
    refine ⟨_, List.mem_map_of_mem _ hx0, ?_⟩
    rw [if_pos hkx0, hkey]
    exact beq_iff_eq.mp hkx0
  · rw [if_neg hany]
    exact ⟨r, List.mem_append_right _ (by simp), rfl⟩

/-- Re-running a whole batch of upserts with pairwise-distinct keys leaves
the table unchanged. -/
theorem upsertManyBy_idem
    (hkey : ∀ x r, key (ov x r) = key x)
    (hov2 : ∀ x r, ov (ov x r) r = ov x r)
    (hself : ∀ r, ov r r = r) :
    ∀ (rs : List α) (t : List α), (rs.map key).Nodup →
      upsertManyBy key ov (upsertManyBy key ov t rs) rs = upsertManyBy key ov t rs := by
  intro rs
  induction rs with
  | nil => intro t _; rfl
  | cons r rs ih =>
    intro t hnd
    simp only [List.map_cons, List.nodup_cons, List.mem_map] at hnd
    obtain ⟨hnotin, hnd2⟩ := hnd
    have hne : ∀ r'' ∈ rs, key r'' ≠ key r := by
      intro r'' h'' heq
      exact hnotin ⟨r'', h'', heq⟩
    have hcons : ∀ (t' : List α),
        upsertManyBy key ov t' (r :: rs) =
          upsertManyBy key ov (upsertBy key ov t' r) rs := fun _ => rfl
    have hstab1 : StableFor key ov (upsertBy key ov t r) r :=
      stableFor_upsertBy_self key ov hkey hov2 hself t r
    have hstabT : StableFor key ov
        (upsertManyBy key ov (upsertBy key ov t r) rs) r :=
      stableFor_upsertManyBy key ov hkey rs (upsertBy key ov t r) r hne hstab1
    have hmemT : ∃ x ∈ upsertManyBy key ov (upsertBy key ov t r) rs, key x = key r :=
      keyMem_upsertManyBy key ov hkey rs (upsertBy key ov t r) (key r)
        (keyMem_upsertBy_exists key ov hkey t r)
    rw [hcons t, hcons (upsertManyBy key ov (upsertBy key ov t r) rs)]
    rw [upsertBy_of_stable key ov _ r hmemT hstabT]
    exact ih (upsertBy key ov t r) hnd2

end UpsertLemmas

/-! ### The observable effect of one `load_callgraph` call -/

/-- Edge inserts never change the state: every row of the batch is skipped
(NOT NULL `depth` under `INSERT OR IGNORE`, see `insertOrIgnoreEdgeRow`). -/
theorem insertEdgesState_id (es : List Edge) : ∀ (s : DBState),
    insertEdgesState s es = s := by
  induction es with
  | nil => intro s; rfl
  | cons e es ih => intro s; exact ih s

theorem writerInsertFunctions_eq (c : Conn) (fs : List Function) :
    writerInsertFunctions c fs =
      ⟨insertFunctionsState c.pending fs, insertFunctionsState c.pending fs⟩ := rfl

theorem writerInsertCallsites_eq (s : DBState) (cs : List CallSite) :
    writerInsertCallsites ⟨s, s⟩ cs =
      ⟨insertCallsitesState s cs, insertCallsitesState s cs⟩ := by
  by_cases h : cs = []
  · subst h; rfl
  · unfold writerInsertCallsites
    rw [if_neg h]
    rfl

theorem writerInsertEdges_eq (s : DBState) (es : List Edge) :
    writerInsertEdges ⟨s, s⟩ es = ⟨s, s⟩ := by
  by_cases h : es = []
  · subst h; rfl
  · unfold writerInsertEdges
    rw [if_neg h]
    show commitConn ⟨s, insertEdgesState s es⟩ = ⟨s, s⟩
    rw [insertEdgesState_id]
    rfl


theorem writtenState_components (g : CallGraph) (p : DBState) :
    writtenState g p =
      ⟨upsertManyBy (fun r => r.id) ovFun p.functions (g.functions.map funRowOf),
       upsertManyBy (fun r => r.id) ovCS p.callsites (g.callsites.map csRowOf),
       p.edges, p.nextEdgeId⟩ := rfl

/-- Normal form of a `load_callgraph` call: each insert batch is committed by
`DB.executemany`, the depth step raises `AttributeError`, the rollback can
only restore the (already advanced) committed state, and the error is
re-raised. -/
theorem load_callgraph_eq (c : Conn) (g : CallGraph) (root_function : String) :
    load_callgraph c g root_function =
      ⟨⟨writtenState g c.pending, writtenState g c.pending⟩, some fetchoneError⟩ := by
  have h1 : load_callgraph c g root_function =
      ⟨rollbackConn (writerInsertEdges (writerInsertCallsites
        (writerInsertFunctions c g.functions) g.callsites) g.edges),
       some fetchoneError⟩ := rfl
  rw [h1, writerInsertFunctions_eq, writerInsertCallsites_eq, writerInsertEdges_eq]
  rfl

/-! ### Validity gives pairwise-distinct ids -/

theorem dupScanAux_nil (l : List String) : ∀ (seen : List String),
    dupScanAux seen l = [] → l.Nodup ∧ ∀ a ∈ l, a ∉ seen := by
  induction l with
  | nil => intro seen _; exact ⟨List.nodup_nil, by simp⟩
  | cons i rest ih =>
    intro seen h
    unfold dupScanAux at h
    by_cases hc : seen.contains i = true
    · rw [if_pos hc] at h
      exact absurd h (by simp)
    · rw [if_neg hc] at h
      obtain ⟨hnd, hnin⟩ := ih (i :: seen) h
      have hini : i ∉ seen := fun hm => hc (List.elem_iff.mpr hm)
      have hirest : i ∉ rest := fun hm => (hnin i hm) (by simp)
      refine ⟨List.nodup_cons.mpr ⟨hirest, hnd⟩, ?_⟩
      intro a ha
      rcases List.mem_cons.mp ha with rfl | ha2
      · exact hini
      · exact fun hns => (hnin a ha2) (by simp [hns])

theorem duplicateIds_nil_nodup (ids : List String)
    (h : duplicateIds ids = []) : ids.Nodup :=
  (dupScanAux_nil ids [] h).1

theorem validate_ok_parts (g : CallGraph) (h : validate_callgraph g = .ok ()) :
    duplicateIds (g.functions.map (fun f => f.id)) = [] ∧
    duplicateIds (g.callsites.map (fun c => c.id)) = [] := by
  simp only [validate_callgraph] at h
  split_ifs at h with h1 h2 h3 h4 h5 <;> simp only [reduceCtorEq] at h
  exact ⟨not_ne_iff.mp h2, not_ne_iff.mp h3⟩

/-- Applying the writer's whole write effect twice is the same as applying it
once, for a graph whose function ids and callsite ids are pairwise
distinct. -/
theorem writtenState_idem (g : CallGraph) (p : DBState)
    (hfn : ((g.functions.map funRowOf).map (fun r => r.id)).Nodup)
    (hcn : ((g.callsites.map csRowOf).map (fun r => r.id)).Nodup) :
    writtenState g (writtenState g p) = writtenState g p := by
  rw [writtenState_components g p]
  rw [writtenState_components g
    ⟨upsertManyBy (fun r => r.id) ovFun p.functions (g.functions.map funRowOf),
     upsertManyBy (fun r => r.id) ovCS p.callsites (g.callsites.map csRowOf),
     p.edges, p.nextEdgeId⟩]
  rw [upsertManyBy_idem (fun r : FunRow => r.id) ovFun (fun _ _ => rfl)
    (fun _ _ => rfl) (fun _ => rfl) (g.functions.map funRowOf) p.functions hfn]
  rw [upsertManyBy_idem (fun r : CSRow => r.id) ovCS (fun _ _ => rfl)
    (fun _ _ => rfl) (fun _ => rfl) (g.callsites.map csRowOf) p.callsites hcn]

/-- C1: for every valid `CallGraph` and root, a second `Writer.load_callgraph`
with the identical graph and root leaves the persisted state exactly as after
the first call — the whole outcome (committed and pending database, and the
raised error) coincides, so no `Function`, `CallSite` or `Edge` row is
duplicated and every edge row's depth is unchanged.  (Function and callsite
batches are primary-key upserts, which are stable on re-application for the
pairwise-distinct ids of a validated graph; edge inserts never add a row at
all, every one being skipped by `INSERT OR IGNORE` against the NOT NULL
`depth` column.) -/
theorem load_callgraph_idempotent (c : Conn) (g : CallGraph)
    (root_function : String) (hvalid : validate_callgraph g = .ok ()) :
    load_callgraph (load_callgraph c g root_function).conn g root_function =
      load_callgraph c g root_function := by
  obtain ⟨hf, hcs⟩ := validate_ok_parts g hvalid
  have hfn : ((g.functions.map funRowOf).map (fun r => r.id)).Nodup := by
    rw [List.map_map]
    exact duplicateIds_nil_nodup _ hf
  have hcn : ((g.callsites.map csRowOf).map (fun r => r.id)).Nodup := by
    rw [List.map_map]
    exact duplicateIds_nil_nodup _ hcs
  rw [load_callgraph_eq c g root_function, load_callgraph_eq]
  show (⟨⟨writtenState g (writtenState g c.pending),
          writtenState g (writtenState g c.pending)⟩, some fetchoneError⟩ : LoadResult) = _
  rw [writtenState_idem g c.pending hfn hcn]

/-- Witness for C1 at the scenario graph loaded twice from an empty store. -/
theorem load_callgraph_idempotent_witness :
    validate_callgraph graphMAB = .ok () ∧
    load_callgraph (load_callgraph emptyConn graphMAB "main").conn graphMAB "main" =
      load_callgraph emptyConn graphMAB "main" :=
  ⟨rfl, load_callgraph_idempotent emptyConn graphMAB "main" rfl⟩

/-- C2: evaluation of the code at the failing input.  The claim (atomic
rollback, store left exactly as before the load) is the documented intent,
but `DB.executemany` commits every batch as soon as it runs, and the depth
step then raises: after the failed load of the scenario graph from an empty
store, the error propagates, yet the function and callsite rows are already
durably committed — a partially written state (functions present, edges and
depths absent) is observable. -/
theorem load_partial_commit_observed :
    (load_callgraph emptyConn graphMAB "main").error = some fetchoneError ∧
    emptyConn.committed.functions = [] ∧
    (load_callgraph emptyConn graphMAB "main").conn.committed.functions =
      [⟨"f1", "main", none, none⟩, ⟨"f2", "a", none, none⟩,
       ⟨"f3", "b", none, none⟩] ∧
    (load_callgraph emptyConn graphMAB "main").conn.committed.callsites =
      [⟨"cs1", "f1", "f2", none, none⟩, ⟨"cs2", "f2", "f3", none, none⟩,
       ⟨"cs3", "f1", "f3", none, none⟩] :=
  ⟨rfl, rfl, rfl, rfl⟩

/-- C3: evaluation of the code at the failing input.  The BFS/update logic of
writer.py lines 144-189 does compute exactly the claimed depths (`b` at 1,
edges `main→a` and `main→b` at 0, `a→b` at 1) when run on the claimed
adjacency — but `_compute_depths` raises `AttributeError` at line 136 before
reaching it, and no edge row ever exists to update (`INSERT OR IGNORE`
skips every row for the NOT NULL `depth` column), so after the load no depth
is stored and the depth summary is empty. -/
theorem compute_depths_failure_and_bfs_intent :
    (load_callgraph emptyConn graphMAB "main").error = some fetchoneError ∧
    (load_callgraph emptyConn graphMAB "main").conn.committed.edges = [] ∧
    depth_summary (load_callgraph emptyConn graphMAB "main").conn.committed = [] ∧
    bfsDepths (adjacencyOf erowsMAB) "main" = [("main", 0), ("a", 1), ("b", 1)] ∧
    edgeDepthUpdates (adjacencyOf erowsMAB)
        (bfsDepths (adjacencyOf erowsMAB) "main") =
      [(0, "main", "a"), (0, "main", "b"), (1, "a", "b")] :=
  ⟨rfl, rfl, rfl, rfl, rfl⟩

/-- C4: evaluation of the code at the failing input.  `from_dict` reads only
the `callsites` / `callSites` keys; the spec's scenario document, which uses
the `calls` key (the key every document producer in this repository emits),
parses to a graph with three functions and no callsites and no edges.  The
same records under the `callsites` key do produce the three derived edges. -/
theorem from_dict_ignores_calls_key :
    CallGraph.from_dict docCalls =
      .ok ⟨[⟨"f1", "main", none, none⟩, ⟨"f2", "a", none, none⟩,
            ⟨"f3", "b", none, none⟩], [], []⟩ ∧
    CallGraph.from_dict docCallsites = .ok graphMAB :=
  ⟨rfl, rfl⟩

/-- C5: evaluation of the code at the failing input.  With a root that
matches no function the load still fails (the claim says depth computation is
skipped and the load completes); with a resolvable root it fails identically,
because `_compute_depths` calls `fetchone()` on the list `DB.execute`
returns.  And the resolution query itself imposes no id-over-name priority:
on a table where the first row matches "main" by name and the second by id,
the first fetched row is the name match. -/
theorem root_resolution_never_succeeds :
    (load_callgraph emptyConn graphMAB "nosuch").error = some fetchoneError ∧
    (load_callgraph emptyConn graphMAB "main").error = some fetchoneError ∧
    rootResolutionRows ambiguousFunRows "main" = ["fa", "main"] :=
  ⟨rfl, rfl, rfl⟩

/-- C6 counterexample: on a graph with both a duplicate callsite id (`cs1`)
and a dangling callee reference (`cs2` → `ghost`), `validate_callgraph` fails
with the duplicate-id error alone; the dangling-reference violation the same
pass accumulated is not part of the returned error, refuting the claim that
both categories are reported together in one violation list. -/
theorem validate_single_category_counterexample :
    validate_callgraph graphDupAndDangling =
      .error (.duplicateCallsiteIds ["cs1"]) ∧
    callsiteRefViolations
      (graphDupAndDangling.functions.map (fun f => f.id))
      graphDupAndDangling.callsites = [("cs2", "ghost")] :=
  ⟨rfl, rfl⟩

/-- C6 amended: `validate_callgraph` accumulates each category fully, but
raises the duplicate-callsite-ids error first, alone; the dangling-reference
list (also fully accumulated) is reported only when there are no duplicate
callsite ids. -/
theorem validate_duplicates_reported_first (g : CallGraph)
    (hne : g.functions ≠ [])
    (hdupf : duplicateIds (g.functions.map (fun f => f.id)) = []) :
    (duplicateIds (g.callsites.map (fun c => c.id)) ≠ [] →
      validate_callgraph g =
        .error (.duplicateCallsiteIds
          (duplicateIds (g.callsites.map (fun c => c.id))))) ∧
    (duplicateIds (g.callsites.map (fun c => c.id)) = [] →
      callsiteRefViolations (g.functions.map (fun f => f.id)) g.callsites ≠ [] →
      validate_callgraph g =
        .error (.invalidCallsiteRefs
          (callsiteRefViolations (g.functions.map (fun f => f.id)) g.callsites))) := by
  constructor
  · intro hdc
    simp only [validate_callgraph]
    rw [if_neg hne, if_neg (not_ne_iff.mpr hdupf), if_pos hdc]
  · intro hdc href
    simp only [validate_callgraph]
    rw [if_neg hne, if_neg (not_ne_iff.mpr hdupf),
      if_neg (not_ne_iff.mpr hdc), if_pos href]

/-- Witness for the amended C6 at the concrete graph of the counterexample's
shape. -/
theorem validate_duplicates_reported_first_witness :
    (graphDupAndDangling.functions ≠ [] ∧
     duplicateIds (graphDupAndDangling.functions.map (fun f => f.id)) = [] ∧
     duplicateIds (graphDupAndDangling.callsites.map (fun c => c.id)) ≠ []) ∧
    validate_callgraph graphDupAndDangling =
      .error (.duplicateCallsiteIds
        (duplicateIds (graphDupAndDangling.callsites.map (fun c => c.id)))) :=
  ⟨⟨by decide, by decide, by decide⟩,
   (validate_duplicates_reported_first graphDupAndDangling
      (by decide) (by decide)).1 (by decide)⟩

/-- C7: evaluation of the code at the failing input.  The round trip is
broken: after loading the scenario graph (whose edge list sends the root
`f1`/`main` directly to `f2` and `f3`), the edges table is empty — every
`INSERT OR IGNORE` row was skipped because of the NOT NULL `depth` column —
so `get_callees` returns the empty list for the root, by id or by name,
instead of the functions the graph's edges reach from it. -/
theorem round_trip_returns_empty :
    (load_callgraph emptyConn graphMAB "main").conn.committed.edges = [] ∧
    get_callees (load_callgraph emptyConn graphMAB "main").conn.committed "f1" = [] ∧
    get_callees (load_callgraph emptyConn graphMAB "main").conn.committed "main" = [] ∧
    (graphMAB.edges.filter (fun e => e.caller == "f1")).map (fun e => e.callee) =
      ["f2", "f3"] :=
  ⟨rfl, rfl, rfl, rfl⟩

/-- C9 counterexample: a storage fault inside `DB.execute` is caught and
converted into the empty list — the very value a zero-row lookup returns —
rather than propagated to the caller. -/
theorem db_execute_swallows_fault_counterexample :
    dbExecute (Except.error "connection lost" : Except String (List FunRow)) = [] ∧
    dbExecute (Except.error "connection lost" : Except String (List FunRow)) =
      dbExecute (Except.ok ([] : List FunRow)) :=
  ⟨rfl, rfl⟩

/-- C9 amended: a lookup that finds zero rows returns an empty collection
(that part of the claim holds) and a successful read returns its rows
unchanged, but a genuine execution failure of `DB.execute` is logged and
swallowed, surfacing as the empty list, indistinguishable from "no rows" —
it is never propagated as an error. -/
theorem db_execute_fault_swallowed (msg : String) (rows : List FunRow) :
    dbExecute (Except.ok ([] : List FunRow)) = [] ∧
    dbExecute (Except.error msg : Except String (List FunRow)) = [] ∧
    dbExecute (Except.ok rows) = rows :=
  ⟨rfl, rfl, rfl⟩

/-! ### Field validator inversion -/

theorem not_empty_ok (v x : String) (h : not_empty v = .ok x) :
    x = pyStrip v ∧ pyStrip v ≠ "" := by
  unfold not_empty at h
  split at h
  · exact absurd h (by simp)
  · rename_i hcond
    simp only [Except.ok.injEq] at h
    refine ⟨h.symm, fun hps => hcond ?_⟩
    simp [hps]

theorem not_empty_rejects (v : String) (h : pyStrip v = "") :
    not_empty v = .error "Field cannot be empty" := by
  unfold not_empty
  rw [if_pos]
  simp [h]

theorem mkFunction_ok (i n : String) (file signature : Option String)
    (fn : Function) (h : mkFunction (some i) (some n) file signature = .ok fn) :
    fn = ⟨pyStrip i, pyStrip n, file, signature⟩ := by
  simp only [mkFunction] at h
  cases hni : not_empty i with
  | error e => rw [hni] at h; exact absurd h (by simp [Bind.bind, Except.bind])
  | ok iv =>
    rw [hni] at h
    cases hnn : not_empty n with
    | error e => rw [hnn] at h; exact absurd h (by simp [Bind.bind, Except.bind])
    | ok nv =>
      rw [hnn] at h
      simp only [Bind.bind, Except.bind, Except.ok.injEq] at h
      rw [← h, (not_empty_ok i iv hni).1, (not_empty_ok n nv hnn).1]

theorem mkCallSite_ok (i c d : String) (file : Option String)
    (line : Option Int) (cs : CallSite)
    (h : mkCallSite (some i) (some c) (some d) file line = .ok cs) :
    cs.id = pyStrip i ∧ cs.caller = pyStrip c ∧ cs.callee = pyStrip d := by
  simp only [mkCallSite] at h
  cases hni : not_empty i with
  | error e => rw [hni] at h; exact absurd h (by simp [Bind.bind, Except.bind])
  | ok iv =>
    rw [hni] at h
    cases hnc : not_empty c with
    | error e => rw [hnc] at h; exact absurd h (by simp [Bind.bind, Except.bind])
    | ok cv =>
      rw [hnc] at h
      cases hnd : not_empty d with
      | error e => rw [hnd] at h; exact absurd h (by simp [Bind.bind, Except.bind])
      | ok dv =>
        rw [hnd] at h
        cases hl : valid_line line with
        | error e => rw [hl] at h; exact absurd h (by simp [Bind.bind, Except.bind])
        | ok lv =>
          rw [hl] at h
          simp only [Bind.bind, Except.bind, Except.ok.injEq] at h
          rw [← h]
          exact ⟨(not_empty_ok i iv hni).1, (not_empty_ok c cv hnc).1,
            (not_empty_ok d dv hnd).1⟩

theorem mkEdge_ok (c d : String) (callsite_id : Option String) (e : Edge)
    (h : mkEdge (some c) (some d) callsite_id = .ok e) :
    e = ⟨pyStrip c, pyStrip d, callsite_id⟩ := by
  simp only [mkEdge] at h
  cases hnc : not_empty c with
  | error er => rw [hnc] at h; exact absurd h (by simp [Bind.bind, Except.bind])
  | ok cv =>
    rw [hnc] at h
    cases hnd : not_empty d with
    | error er => rw [hnd] at h; exact absurd h (by simp [Bind.bind, Except.bind])
    | ok dv =>
      rw [hnd] at h
      simp only [Bind.bind, Except.bind, Except.ok.injEq] at h
      rw [← h, (not_empty_ok c cv hnc).1, (not_empty_ok d dv hnd).1]

/-- C10: every successfully constructed `Function`, `CallSite` and `Edge`
stores its required string fields (`id`, `name`, `caller`, `callee`) with
leading and trailing whitespace stripped; a whitespace-only value is rejected
at construction; and two references that differ only in surrounding
whitespace coincide after construction (concretely, `" f1 "` and `"f1"` both
become `"f1"`). -/
theorem constructors_strip_required_fields :
    (∀ (i n : String) (file sig : Option String) (fn : Function),
      mkFunction (some i) (some n) file sig = .ok fn →
      fn.id = pyStrip i ∧ fn.name = pyStrip n) ∧
    (∀ (i n : String) (file sig : Option String), pyStrip i = "" →
      ∀ fn, mkFunction (some i) (some n) file sig ≠ .ok fn) ∧
    (∀ (i c d : String) (file : Option String) (line : Option Int)
      (cs : CallSite), mkCallSite (some i) (some c) (some d) file line = .ok cs →
      cs.id = pyStrip i ∧ cs.caller = pyStrip c ∧ cs.callee = pyStrip d) ∧
    (∀ (c d : String) (cid : Option String) (e : Edge),
      mkEdge (some c) (some d) cid = .ok e →
      e.caller = pyStrip c ∧ e.callee = pyStrip d) ∧
    (∀ (a b c d : String) (cid1 cid2 : Option String) (e1 e2 : Edge),
      pyStrip a = pyStrip b →
      mkEdge (some a) (some c) cid1 = .ok e1 →
      mkEdge (some b) (some d) cid2 = .ok e2 →
      e1.caller = e2.caller) ∧
    pyStrip " f1 " = "f1" ∧ pyStrip "f1" = "f1" := by
  refine ⟨?_, ?_, ?_, ?_, ?_, rfl, rfl⟩
  · intro i n file sig fn h
    rw [mkFunction_ok i n file sig fn h]
    exact ⟨rfl, rfl⟩
  · intro i n file sig hps fn h
    simp only [mkFunction] at h
    rw [not_empty_rejects i hps] at h
    exact absurd h (by simp [Bind.bind, Except.bind])
  · intro i c d file line cs h
    exact mkCallSite_ok i c d file line cs h
  · intro c d cid e h
    rw [mkEdge_ok c d cid e h]
    exact ⟨rfl, rfl⟩
  · intro a b c d cid1 cid2 e1 e2 hab h1 h2
    rw [mkEdge_ok a c cid1 e1 h1, mkEdge_ok b d cid2 e2 h2]
    exact hab

/-- Witness for C10: a caller written `" f1 "` is stored as `"f1"`, equal to
the same reference written without the surrounding whitespace. -/
theorem constructors_strip_required_fields_witness :
    (mkEdge (some " f1 ") (some "f2") none = .ok ⟨"f1", "f2", none⟩ ∧
     mkEdge (some "f1") (some "f3") none = .ok ⟨"f1", "f3", none⟩ ∧
     pyStrip " f1 " = pyStrip "f1") ∧
    (⟨"f1", "f2", none⟩ : Edge).caller = (⟨"f1", "f3", none⟩ : Edge).caller :=
  ⟨⟨rfl, rfl, rfl⟩,
   constructors_strip_required_fields.2.2.2.2.1 " f1 " "f1" "f2" "f3" none none
     ⟨"f1", "f2", none⟩ ⟨"f1", "f3", none⟩ rfl rfl rfl⟩

/-! ### Reachability and the BFS invariant -/


theorem bfsStepNeighbors_inv (adj : List (String × List String))
    (root : String) (d : Nat) :
    ∀ (ns : List String) (depths : List (String × Nat)) (queue : List String),
      (∀ n ∈ ns, ReachableFrom adj root n) →
      (∀ p ∈ depths, ReachableFrom adj root p.1) →
      (∀ q ∈ queue, ReachableFrom adj root q) →
      (∀ p ∈ (bfsStepNeighbors (depths, queue) d ns).1, ReachableFrom adj root p.1) ∧
      (∀ q ∈ (bfsStepNeighbors (depths, queue) d ns).2, ReachableFrom adj root q) := by
  intro ns
  induction ns with
  | nil => intro depths queue _ h1 h2; exact ⟨h1, h2⟩
  | cons n ns ih =>
    intro depths queue hns h1 h2
    have hcons : bfsStepNeighbors (depths, queue) d (n :: ns) =
        bfsStepNeighbors (bfsVisit (depths, queue) d n) d ns := rfl
    rw [hcons]
    unfold bfsVisit
    by_cases hc : depths.any (fun p => p.1 == n) = true
    · rw [if_pos hc]
      exact ih depths queue (fun m hm => hns m (by simp [hm])) h1 h2
    · rw [if_neg hc]
      refine ih (depths ++ [(n, d + 1)]) (queue ++ [n])
        (fun m hm => hns m (by simp [hm])) ?_ ?_
      · intro p hp
        rcases List.mem_append.mp hp with hp | hp
        · exact h1 p hp
        · rw [List.mem_singleton] at hp
          subst hp
          exact hns _ (by simp)
      · intro q hq
        rcases List.mem_append.mp hq with hq | hq
        · exact h2 q hq
        · rw [List.mem_singleton] at hq
          subst hq
          exact hns _ (by simp)

theorem bfsLoop_reachable (adj : List (String × List String)) (root : String) :
    ∀ (fuel : Nat) (depths : List (String × Nat)) (queue : List String),
      (∀ p ∈ depths, ReachableFrom adj root p.1) →
      (∀ q ∈ queue, ReachableFrom adj root q) →
      ∀ p ∈ bfsLoop adj fuel depths queue, ReachableFrom adj root p.1 := by
  intro fuel
  induction fuel with
  | zero => intro depths queue h1 _ p hp; exact h1 p hp
  | succ fuel ih =>
    intro depths queue h1 h2 p hp
    cases queue with
    | nil => exact h1 p hp
    | cons current rest =>
      have hcur : ReachableFrom adj root current := h2 current (by simp)
      have hns : ∀ n ∈ lookupAdj adj current, ReachableFrom adj root n :=
        fun n hn => ReachableFrom.step hcur hn
      have h2r : ∀ q ∈ rest, ReachableFrom adj root q :=
        fun q hq => h2 q (by simp [hq])
      obtain ⟨hd, hq⟩ := bfsStepNeighbors_inv adj root
        (match depths.find? (fun p2 => p2.1 == current) with
          | some p2 => p2.2
          | none => 0)
        (lookupAdj adj current) depths rest hns h1 h2r
      exact ih _ _ hd hq p hp

/-- Every node that gets a depth assigned by the BFS is reachable from the
root. -/
theorem bfsDepths_keys_reachable (adj : List (String × List String))
    (root : String) : ∀ p ∈ bfsDepths adj root, ReachableFrom adj root p.1 := by
  apply bfsLoop_reachable
  · intro p hp
    rw [List.mem_singleton] at hp
    subst hp
    exact ReachableFrom.root
  · intro q hq
    rw [List.mem_singleton] at hq
    subst hq
    exact ReachableFrom.root

theorem bfsDepths_unreachable (adj : List (String × List String))
    (root f : String) (h : ¬ ReachableFrom adj root f) :
    (bfsDepths adj root).find? (fun p => p.1 == f) = none := by
  rw [List.find?_eq_none]
  intro p hp hbeq
  apply h
  have hpf : p.1 = f := by simpa using hbeq
  exact hpf ▸ bfsDepths_keys_reachable adj root p hp

/-! ### Edge-depth updates leave unassigned callers untouched -/

theorem edgeUpdateSteps_callers (depths : List (String × Nat)) :
    ∀ (adj : List (String × List String)) (acc : List (Nat × String × String)),
      (∀ u ∈ acc, ∃ p ∈ depths, p.1 = u.2.1) →
      ∀ u ∈ adj.foldl (edgeUpdateStep depths) acc, ∃ p ∈ depths, p.1 = u.2.1 := by
  intro adj
  induction adj with
  | nil => intro acc hacc u hu; exact hacc u hu
  | cons pr adj ih =>
    intro acc hacc u hu
    rw [List.foldl_cons] at hu
    refine ih (edgeUpdateStep depths acc pr) ?_ u hu
    intro v hv
    unfold edgeUpdateStep at hv
    cases hf : depths.find? (fun q => q.1 == pr.1) with
    | none => rw [hf] at hv; exact hacc v hv
    | some q =>
      rw [hf] at hv
      rcases List.mem_append.mp hv with hv | hv
      · exact hacc v hv
      · rw [List.mem_map] at hv
        obtain ⟨n, _, hvn⟩ := hv
        refine ⟨q, List.mem_of_find?_eq_some hf, ?_⟩
        have hq1 : (q.1 == pr.1) = true := by
          have hp1 := List.find?_some hf
          simpa using hp1
        rw [← hvn]
        exact beq_iff_eq.mp hq1

theorem edgeDepthUpdates_callers (adj : List (String × List String))
    (depths : List (String × Nat)) :
    ∀ u ∈ edgeDepthUpdates adj depths, ∃ p ∈ depths, p.1 = u.2.1 :=
  edgeUpdateSteps_callers depths adj [] (by simp)

theorem applyDepthUpdate_other (f : String) (t : List EdgeRow)
    (u : Nat × String × String) (hu : u.2.1 ≠ f) :
    (applyDepthUpdate t u).filter (fun r => r.caller_function_id == f) =
      t.filter (fun r => r.caller_function_id == f) := by
  unfold applyDepthUpdate
  rw [List.filter_map]
  have hpred : ∀ r : EdgeRow,
      ((fun r2 : EdgeRow => r2.caller_function_id == f) ∘
        (fun r2 : EdgeRow =>
          if r2.caller_function_id == u.2.1 && r2.callee_function_id == u.2.2 then
            { r2 with depth := some (Int.ofNat u.1) }
          else r2)) r = (r.caller_function_id == f) := by
    intro r
    by_cases hc : (r.caller_function_id == u.2.1 && r.callee_function_id == u.2.2) = true
    · simp only [Function.comp_apply, if_pos hc]
    · simp only [Function.comp_apply, if_neg hc]
  rw [List.filter_congr (fun r _ => hpred r)]
  apply map_id_of_mem
  intro r hr
  rw [List.mem_filter] at hr
  have hrf : r.caller_function_id = f := by simpa using hr.2
  rw [if_neg]
  simp only [Bool.and_eq_true, beq_iff_eq, not_and]
  intro hcal
  exact absurd (hrf ▸ hcal) hu.symm

theorem applyUpdates_preserve_other (f : String) :
    ∀ (updates : List (Nat × String × String)) (t : List EdgeRow),
      (∀ u ∈ updates, u.2.1 ≠ f) →
      (updates.foldl applyDepthUpdate t).filter
          (fun r => r.caller_function_id == f) =
        t.filter (fun r => r.caller_function_id == f) := by
  intro updates
  induction updates with
  | nil => intro t _; rfl
  | cons u us ih =>
    intro t hus
    rw [List.foldl_cons]
    rw [ih (applyDepthUpdate t u) (fun v hv => hus v (by simp [hv]))]
    exact applyDepthUpdate_other f t u (hus u (by simp))

/-! ### `depth_summary` shape -/

theorem depth_summary_sorted_strict (s : DBState) :
    ((depth_summary s).map (fun row => row.depth)).Pairwise (· < ·) := by
  have h1 : (depth_summary s).map (fun row => row.depth) =
      assignedDepthsSorted s.edges := by
    unfold depth_summary
    rw [List.map_map]
    exact map_id_of_mem _ _ (fun x _ => rfl)
  rw [h1]
  unfold assignedDepthsSorted
  have hsorted := List.sorted_insertionSort (fun a b : Int => a ≤ b)
    ((s.edges.filterMap (fun r => r.depth)).dedup)
  have hnodup : (List.insertionSort (fun a b : Int => a ≤ b)
      ((s.edges.filterMap (fun r => r.depth)).dedup)).Nodup :=
    ((List.perm_insertionSort _ _).nodup_iff).mpr (List.nodup_dedup _)
  exact (hsorted.and hnodup).imp (fun h => lt_of_le_of_ne h.1 h.2)

theorem depth_summary_row_facts (s : DBState) :
    ∀ row ∈ depth_summary s,
      0 < row.edge_count ∧
      row.edge_count =
        (s.edges.filter (fun r => r.depth == some row.depth)).length ∧
      row.function_count =
        ((s.edges.filter (fun r => r.depth == some row.depth)).map
          (fun r => r.caller_function_id)).dedup.length := by
  intro row hrow
  unfold depth_summary at hrow
  rw [List.mem_map] at hrow
  obtain ⟨d, hd, hrow⟩ := hrow
  subst hrow
  refine ⟨?_, rfl, rfl⟩
  unfold assignedDepthsSorted at hd
  have hd2 : d ∈ (s.edges.filterMap (fun r => r.depth)).dedup :=
    ((List.perm_insertionSort _ _).mem_iff).mp hd
  rw [List.mem_dedup, List.mem_filterMap] at hd2
  obtain ⟨r, hr, hrd⟩ := hd2
  rw [List.length_pos]
  intro hnil
  have hmem : r ∈ s.edges.filter (fun r2 => r2.depth == some d) := by
    rw [List.mem_filter]
    exact ⟨hr, by simp [hrd]⟩
  rw [hnil] at hmem
  exact absurd hmem (List.not_mem_nil r)

/-- C8: a function with no path from the root receives no depth from the BFS
(no entry in the computed depth map), the update batch contains no update for
its outgoing edges, so folding the batch over any edges-table state leaves
every row with that caller untouched (at any prior value, or unset); and
`depth_summary` aggregates only edge rows whose depth is assigned — each
reported row counts exactly the rows carrying that depth (so it is nonempty)
— grouped by depth in strictly ascending order, hence it never reports a
node without an assigned depth. -/
theorem unreachable_function_untouched (adj : List (String × List String))
    (root f : String) (hunreach : ¬ ReachableFrom adj root f) :
    ((bfsDepths adj root).find? (fun p => p.1 == f) = none) ∧
    (∀ (t : List EdgeRow),
      ((edgeDepthUpdates adj (bfsDepths adj root)).foldl applyDepthUpdate t).filter
          (fun r => r.caller_function_id == f) =
        t.filter (fun r => r.caller_function_id == f)) ∧
    (∀ (s : DBState),
      ((depth_summary s).map (fun row => row.depth)).Pairwise (· < ·) ∧
      ∀ row ∈ depth_summary s,
        0 < row.edge_count ∧
        row.edge_count =
          (s.edges.filter (fun r => r.depth == some row.depth)).length ∧
        row.function_count =
          ((s.edges.filter (fun r => r.depth == some row.depth)).map
            (fun r => r.caller_function_id)).dedup.length) := by
  refine ⟨bfsDepths_unreachable adj root f hunreach, ?_,
    fun s => ⟨depth_summary_sorted_strict s, depth_summary_row_facts s⟩⟩
  intro t
  apply applyUpdates_preserve_other
  intro u hu huf
  obtain ⟨p, hp, hpf⟩ := edgeDepthUpdates_callers adj (bfsDepths adj root) u hu
  apply hunreach
  have : p.1 = f := by rw [hpf, huf]
  exact this ▸ bfsDepths_keys_reachable adj root p hp


/-- Witness for C8 at a concrete adjacency with an unreachable node `b`. -/
theorem unreachable_function_untouched_witness :
    (¬ ReachableFrom adjW "main" "b") ∧
    (bfsDepths adjW "main").find? (fun p => p.1 == "b") = none := by
  have hnr : ∀ x, ReachableFrom adjW "main" x → x = "main" ∨ x = "a" := by
    intro x h
    induction h with
    | root => exact Or.inl rfl
    | step hx hy ih =>
      rcases ih with h1 | h1
      · subst h1
        have : _ ∈ ["a"] := hy
        right
        simpa using this
      · subst h1
        have : _ ∈ ([] : List String) := hy
        exact absurd this (List.not_mem_nil _)
  have hb : ¬ ReachableFrom adjW "main" "b" := by
    intro h
    rcases hnr "b" h with h1 | h1 <;> simp at h1
  exact ⟨hb, (unreachable_function_untouched adjW "main" "b" hb).1⟩

end CallgraphUI
